import Mathlib

/-!
Verification of the similarity-based mapping generator of the SIHapi
terminology-mapping service (src/server/src/services, SimilarityMatcher),
formalised as a shallow embedding.

Strings are modelled as `String` / `List Char`; JavaScript numbers are
modelled as exact rationals `ℚ` (the similarity arithmetic consists of
divisions by 100 and fixed decimal weights, which are exact in `ℚ`);
the external `fuzzball` fuzzy-matching library is abstracted as a record
of four 0–100 metrics.
-/

namespace SIHapi

/-! ### JavaScript character classes

`isWordChar` models the regex class `\w` (`[A-Za-z0-9_]`), and
`isSpaceChar` models `\s` (ECMAScript WhiteSpace and LineTerminator code
points), via their code points. -/

def isWordChar (c : Char) : Bool :=
  let n := c.toNat
  (97 ≤ n && n ≤ 122) || (65 ≤ n && n ≤ 90) || (48 ≤ n && n ≤ 57) || n == 95

def isSpaceChar (c : Char) : Bool :=
  let n := c.toNat
  (9 ≤ n && n ≤ 13) || n == 32 || n == 160 || n == 5760 ||
  (8192 ≤ n && n ≤ 8202) || n == 8232 || n == 8233 || n == 8239 ||
  n == 8287 || n == 12288 || n == 65279

/-- JavaScript `String.prototype.toLowerCase` restricted to ASCII
(`A`–`Z` become `a`–`z`; the inputs of this service are ASCII medical
terms). -/
def jsToLower (c : Char) : Char :=
  if 65 ≤ c.toNat && c.toNat ≤ 90 then Char.ofNat (c.toNat + 32) else c

/-- One step of `.replace(/[^\w\s]/g, ' ')`: a character that is neither
a word character nor whitespace becomes a single space. -/
def punctToSpace (c : Char) : Char :=
  if !(isWordChar c) && !(isSpaceChar c) then ' ' else c

/-- `.replace(/\s+/g, ' ')`: each maximal run of whitespace characters is
replaced by one space. -/
def collapseWS : List Char → List Char
  | [] => []
  | c :: cs =>
    if isSpaceChar c then
      match cs with
      | [] => [' ']
      | d :: _ => if isSpaceChar d then collapseWS cs else ' ' :: collapseWS cs
    else c :: collapseWS cs

/-- Remove trailing whitespace. -/
def trimRight (l : List Char) : List Char :=
  (l.reverse.dropWhile isSpaceChar).reverse

/-- JavaScript `String.prototype.trim`: remove leading and trailing
whitespace. -/
def jsTrim (l : List Char) : List Char :=
  trimRight (l.dropWhile isSpaceChar)

/-- The whole normalisation pipeline of `normalizeText` on the character
list of a string: lowercase, replace punctuation by spaces, collapse
whitespace runs, trim. -/
def normalizeList (l : List Char) : List Char :=
  jsTrim (collapseWS ((l.map jsToLower).map punctToSpace))

/-- `normalizeText` from SimilarityMatcher.  `none` models a `null` /
`undefined` argument; JavaScript treats `null`, `undefined` and `''` as
falsy, returning `''`. -/
def normalizeText : Option String → String
  | none => ""
  | some s => if s = "" then "" else ⟨normalizeList s.data⟩

def jsTrimStr (s : String) : String := ⟨jsTrim s.data⟩

/-! ### Declarative description of the normaliser

`wordsOf` splits a character list into its maximal runs of word
characters; `joinWords` joins word runs with single spaces.  These two
definitions follow the specification text for `normalize` (word content
separated by single spaces, no leading/trailing whitespace) and are
proved equal to the operational pipeline above. -/

def wordsOf : List Char → List (List Char)
  | [] => []
  | c :: cs =>
    if isWordChar c then
      match cs with
      | [] => [[c]]
      | d :: _ =>
        if isWordChar d then (c :: (wordsOf cs).headD []) :: (wordsOf cs).tail
        else [c] :: wordsOf cs
    else wordsOf cs

def joinWords : List (List Char) → List Char
  | [] => []
  | [w] => w
  | w :: w2 :: ws => w ++ ' ' :: joinWords (w2 :: ws)

/-! ### Similarity scorer (`calculateSimilarity`, `calculateCompositeSimilarity`)

The `fuzzball` npm library is a third-party dependency, not part of this
repository; it is abstracted as a record of its four 0–100 string metrics. -/

structure Fuzz where
  ratio : String → String → ℕ
  partRatio : String → String → ℕ
  tokenSortRatio : String → String → ℕ
  tokenSetRatio : String → String → ℕ

/-- JavaScript truthiness of a possibly-null string (`null`, `undefined`
and `''` are falsy). -/
def truthy : Option String → Bool
  | none => false
  | some s => s ≠ ""

/-- `this.similarityThreshold` from the SimilarityMatcher constructor. -/
def similarityThreshold : ℚ := 0.6

/-- `this.highConfidenceThreshold` from the SimilarityMatcher constructor. -/
def highConfidenceThreshold : ℚ := 0.8

/-- `calculateSimilarity(text1, text2, method)`: guard on falsy inputs,
normalize, guard on empty normalizations, then dispatch on the method
name string (unknown methods fall back to `ratio`). -/
def calculateSimilarity (fz : Fuzz) (text1 text2 : Option String)
    (method : String) : ℚ :=
  if !(truthy text1) || !(truthy text2) then 0
  else
    let n1 := normalizeText text1
    let n2 := normalizeText text2
    if n1 = "" || n2 = "" then 0
    else if method = "ratio" then (fz.ratio n1 n2 : ℚ) / 100
    else if method = "partial_ratio" then (fz.partRatio n1 n2 : ℚ) / 100
    else if method = "token_sort_ratio" then (fz.tokenSortRatio n1 n2 : ℚ) / 100
    else if method = "token_set_ratio" then (fz.tokenSetRatio n1 n2 : ℚ) / 100
    else (fz.ratio n1 n2 : ℚ) / 100

structure SubScores where
  ratio : ℚ
  partRatio : ℚ
  tokenSortRatio : ℚ
  tokenSetRatio : ℚ
deriving DecidableEq

structure SimilarityResult where
  composite : ℚ
  individual : SubScores
deriving DecidableEq

/-- `calculateCompositeSimilarity(text1, text2)`: the four method scores,
combined by `reduce` with the weight vector `[0.4, 0.2, 0.2, 0.2]`. -/
def calculateCompositeSimilarity (fz : Fuzz) (text1 text2 : Option String) :
    SimilarityResult :=
  let methods := ["ratio", "partial_ratio", "token_sort_ratio", "token_set_ratio"]
  let scores := methods.map (fun m => calculateSimilarity fz text1 text2 m)
  let weights : List ℚ := [0.4, 0.2, 0.2, 0.2]
  let weightedScore := (scores.zip weights).foldl (fun sum p => sum + p.1 * p.2) 0
  { composite := weightedScore
    individual :=
      { ratio := scores.getD 0 0
        partRatio := scores.getD 1 0
        tokenSortRatio := scores.getD 2 0
        tokenSetRatio := scores.getD 3 0 } }

/-! ### Searchable text and matches -/

/-- A code record (NAMASTE/Ayurveda or ICD-11 entry) as a JavaScript object
with optional textual fields; `none` models an absent field. -/
structure CodeRecord where
  code : String := ""
  id : String := ""
  display : Option String := none
  title : Option String := none
  name_english : Option String := none
  description : Option String := none
  definition : Option String := none
  longDefinition : Option String := none
  namc_term : Option String := none
  short_definition : Option String := none
  long_definition : Option String := none
  synonym : Option (List String) := none
  inclusion : Option (List String) := none
deriving DecidableEq

/-- `if (obj.field) textParts.push(obj.field)` for a string field. -/
def pushOpt : Option String → List String
  | none => []
  | some t => if t = "" then [] else [t]

/-- `if (obj.field && obj.field !== '-') textParts.push(obj.field)`. -/
def pushOptDash : Option String → List String
  | none => []
  | some t => if t = "" ∨ t = "-" then [] else [t]

/-- `createSearchableText(codeObject)` from SimilarityMatcher. -/
def createSearchableText (c : CodeRecord) : String :=
  let textParts :=
    pushOpt c.display ++ pushOpt c.title ++ pushOpt c.name_english ++
    pushOpt c.description ++ pushOpt c.definition ++ pushOpt c.longDefinition ++
    pushOpt c.namc_term ++ pushOptDash c.short_definition ++
    pushOptDash c.long_definition ++
    (c.synonym.getD []) ++ (c.inclusion.getD [])
  String.intercalate " "
    (textParts.filter (fun t => t ≠ "" && t ≠ "-" && jsTrimStr t ≠ ""))

inductive Confidence where
  | high
  | medium
  | low
deriving DecidableEq

/-- `getConfidenceLevel(score)` from SimilarityMatcher. -/
def getConfidenceLevel (score : ℚ) : Confidence :=
  if highConfidenceThreshold ≤ score then .high
  else if similarityThreshold ≤ score then .medium
  else .low

/-- A match object pushed by `findBestMatches`. -/
structure Mapping where
  ayurveda_code : String
  icd11_code : String
  icd11_display : Option String
  similarity_score : ℚ
  similarity_details : SubScores
  confidence : Confidence
  ayurveda_text : String
  icd11_text : String
deriving DecidableEq

/-- JavaScript `a || b` on possibly-absent strings. -/
def jsOr (a b : Option String) : Option String :=
  if truthy a then a else b

/-- The body of the `for` loop of `findBestMatches` for one target record:
`some` mapping when the composite score reaches the threshold. -/
def mkMatch (fz : Fuzz) (a : CodeRecord) (aText : String) (t : CodeRecord) :
    Option Mapping :=
  if similarityThreshold ≤
      (calculateCompositeSimilarity fz (some aText)
        (some (createSearchableText t))).composite then
    some
      { ayurveda_code := a.code
        icd11_code := if t.code ≠ "" then t.code else t.id
        icd11_display := jsOr t.display t.title
        similarity_score :=
          (calculateCompositeSimilarity fz (some aText)
            (some (createSearchableText t))).composite
        similarity_details :=
          (calculateCompositeSimilarity fz (some aText)
            (some (createSearchableText t))).individual
        confidence :=
          getConfidenceLevel
            (calculateCompositeSimilarity fz (some aText)
              (some (createSearchableText t))).composite
        ayurveda_text := aText
        icd11_text := createSearchableText t }
  else none

/-- The `matches` array accumulated by `findBestMatches` before sorting,
in target iteration order. -/
def candidates (fz : Fuzz) (a : CodeRecord) (ts : List CodeRecord) :
    List Mapping :=
  ts.filterMap (mkMatch fz a (createSearchableText a))

/-- Stable insertion of a mapping into a list sorted by descending
score: the inserted element goes before the first element whose score
does not exceed it. -/
def insertDesc (x : Mapping) : List Mapping → List Mapping
  | [] => [x]
  | y :: ys =>
    if y.similarity_score ≤ x.similarity_score then x :: y :: ys
    else y :: insertDesc x ys

/-- Stable sort by descending `similarity_score`, modelling the (stable)
JavaScript `Array.prototype.sort` with comparator
`(a, b) => b.similarity_score - a.similarity_score`. -/
def sortDesc : List Mapping → List Mapping
  | [] => []
  | x :: xs => insertDesc x (sortDesc xs)

/-- Default `maxResults` of `findBestMatches`. -/
def defaultMaxResults : ℕ := 5

/-- `findBestMatches(ayurvedaCode, icd11Codes, maxResults)`: filter by
threshold, sort descending, truncate. -/
def findBestMatches (fz : Fuzz) (a : CodeRecord) (ts : List CodeRecord)
    (maxResults : ℕ) : List Mapping :=
  (sortDesc (candidates fz a ts)).take maxResults

/-! ### Persistence: the `concept_mappings` table and `saveMappingToDatabase`

The table (src/server/src/models/database.js) has
`UNIQUE(namaste_code, icd11_code)`; `saveMappingToDatabase` issues
`INSERT OR REPLACE` when `overwriteExisting` is true and
`INSERT OR IGNORE` otherwise.  The store is modelled as the list of rows
in rowid order; a row records exactly the seven columns of the insert.
The JSON `mapping_details` blob is modelled by its three components. -/

structure MappingRow where
  namaste_code : String
  icd11_code : String
  equivalence : String
  confidence : ℚ
  mapping_type : String
  similarity_score : ℚ
  details_similarity : SubScores
  details_ayurveda_text : String
  details_icd11_text : String
deriving DecidableEq

/-- The parameter vector bound by `saveMappingToDatabase` for a mapping. -/
def mappingRow (m : Mapping) : MappingRow :=
  { namaste_code := m.ayurveda_code
    icd11_code := m.icd11_code
    equivalence := "equivalent"
    confidence := m.similarity_score
    mapping_type := "automatic"
    similarity_score := m.similarity_score
    details_similarity := m.similarity_details
    details_ayurveda_text := m.ayurveda_text
    details_icd11_text := m.icd11_text }

abbrev Store := List MappingRow

def rowKey (r : MappingRow) : String × String := (r.namaste_code, r.icd11_code)

def hasKey (st : Store) (k : String × String) : Bool :=
  (st : List MappingRow).any (fun r => rowKey r = k)

/-- SQLite `INSERT OR REPLACE` under the `UNIQUE(namaste_code, icd11_code)`
constraint: conflicting rows are deleted, the new row is appended. -/
def applyInsertOrReplace (row : MappingRow) (st : Store) : Store :=
  (st : List MappingRow).filter (fun r => rowKey r ≠ rowKey row) ++ [row]

/-- SQLite `INSERT OR IGNORE` under the unique constraint: a conflicting
insert is a no-op. -/
def applyInsertOrIgnore (row : MappingRow) (st : Store) : Store :=
  if hasKey st (rowKey row) then st else (st : List MappingRow) ++ [row]

/-- The database environment: `fail row = some msg` models `db.run`
calling back with an error for this insert (the error is logged and the
promise rejected). -/
structure DBEnv where
  fail : MappingRow → Option String

/-- `saveMappingToDatabase(mapping, overwriteExisting)`: one `db.run` of
the chosen insert statement; `Except.error` models the rejected promise. -/
def saveMappingToDatabase (env : DBEnv) (ow : Bool) (m : Mapping)
    (st : Store) : Except String Store :=
  match env.fail (mappingRow m) with
  | some msg => .error msg
  | none =>
    .ok (if ow then applyInsertOrReplace (mappingRow m) st
         else applyInsertOrIgnore (mappingRow m) st)

/-! ### `generateMappings` -/

structure GenOptions where
  maxMatchesPerCode : ℕ := 3
  saveToDatabase : Bool := true
  overwriteExisting : Bool := false

def defaultGenOptions : GenOptions := {}

structure GenStats where
  total : ℕ
  highConfidence : ℕ
  mediumConfidence : ℕ
deriving DecidableEq

structure GenResult where
  all : List Mapping
  high : List Mapping
  medium : List Mapping
  stats : GenStats
deriving DecidableEq

/-- Accumulator of one run: the `allMappings` array, the store, and the
list of insert attempts issued so far (in order). -/
abbrev GenAcc := List Mapping × Store × List MappingRow

/-- The inner `for (const match of matches)` loop of `generateMappings`:
push the match, then (when `saveToDatabase`) await the save; a rejected
save propagates out of the `async` function. -/
def processMatches (env : DBEnv) (sv ow : Bool) :
    List Mapping → GenAcc → Except (String × Store × List MappingRow) GenAcc
  | [], acc => .ok acc
  | m :: ms, (all, st, calls) =>
    if sv then
      match saveMappingToDatabase env ow m st with
      | .error msg => .error (msg, st, calls ++ [mappingRow m])
      | .ok st' => processMatches env sv ow ms (all ++ [m], st', calls ++ [mappingRow m])
    else processMatches env sv ow ms (all ++ [m], st, calls)

/-- The outer loop of `generateMappings` over the Ayurveda codes. -/
def runSources (fz : Fuzz) (env : DBEnv) (tgts : List CodeRecord) (maxM : ℕ)
    (sv ow : Bool) :
    List CodeRecord → GenAcc → Except (String × Store × List MappingRow) GenAcc
  | [], acc => .ok acc
  | a :: rest, acc =>
    match processMatches env sv ow (findBestMatches fz a tgts maxM) acc with
    | .error e => .error e
    | .ok acc' => runSources fz env tgts maxM sv ow rest acc'

/-- `generateMappings(ayurvedaCodes, icd11Codes, options)` starting from a
given store.  On success it returns the `{all, high, medium, stats}`
object together with the final store and the list of insert attempts; a
rejected save is propagated (`Except.error`), carrying the error message
and the store and attempts at that point. -/
def generateMappings (fz : Fuzz) (env : DBEnv) (srcs tgts : List CodeRecord)
    (opts : GenOptions) (st : Store) :
    Except (String × Store × List MappingRow) (GenResult × Store × List MappingRow) :=
  match runSources fz env tgts opts.maxMatchesPerCode opts.saveToDatabase
      opts.overwriteExisting srcs ([], st, []) with
  | .error e => .error e
  | .ok (all, st', calls) =>
    let highConfidence := all.filter (fun m => m.confidence = Confidence.high)
    let mediumConfidence := all.filter (fun m => m.confidence = Confidence.medium)
    .ok
      ({ all := all
         high := highConfidence
         medium := mediumConfidence
         stats :=
           { total := all.length
             highConfidence := highConfidence.length
             mediumConfidence := mediumConfidence.length } },
        st', calls)

/-! ### Properties of the external metrics, and a concrete instance

`FuzzSpec` is modelled from the spec: the fuzzball library is not part of
the repository; §4.3 of the specification states that each of the four
metrics is a 0–100 score and that identical (non-empty) strings attain
the maximum. -/

structure FuzzSpec (fz : Fuzz) : Prop where
  ratio_le : ∀ a b, fz.ratio a b ≤ 100
  partRatio_le : ∀ a b, fz.partRatio a b ≤ 100
  tokenSortRatio_le : ∀ a b, fz.tokenSortRatio a b ≤ 100
  tokenSetRatio_le : ∀ a b, fz.tokenSetRatio a b ≤ 100
  ratio_self : ∀ a, a ≠ "" → fz.ratio a a = 100
  partRatio_self : ∀ a, a ≠ "" → fz.partRatio a a = 100
  tokenSortRatio_self : ∀ a, a ≠ "" → fz.tokenSortRatio a a = 100
  tokenSetRatio_self : ∀ a, a ≠ "" → fz.tokenSetRatio a a = 100

/-- A minimal concrete metric family used to evaluate the pipeline on
concrete inputs (equal strings score 100, others 0). -/
def fuzzTest : Fuzz :=
  { ratio := fun a b => if a = b then 100 else 0
    partRatio := fun a b => if a = b then 100 else 0
    tokenSortRatio := fun a b => if a = b then 100 else 0
    tokenSetRatio := fun a b => if a = b then 100 else 0 }

/-! ### Store invariants -/

/-- The uniqueness invariant of `concept_mappings`: at most one row per
`(namaste_code, icd11_code)` pair. -/
def NoDupKeys (st : Store) : Prop :=
  (st : List MappingRow).Pairwise (fun r1 r2 => rowKey r1 ≠ rowKey r2)

/-- The constants written by `saveMappingToDatabase` for every row. -/
def autoRow (r : MappingRow) : Prop :=
  r.equivalence = "equivalent" ∧ r.mapping_type = "automatic" ∧
    r.confidence = r.similarity_score

/-! ### Concrete records for evaluating the pipeline -/

def srcRec : CodeRecord :=
  { code := "AYU1", display := some "gastro intestinal disorder" }

def srcRec2 : CodeRecord :=
  { code := "AYU2", display := some "gastro intestinal disorder" }

def tgtRec : CodeRecord :=
  { code := "SM10", display := some "Gastro-Intestinal, Disorder!" }

/-- A database that accepts every insert. -/
def env0 : DBEnv := ⟨fun _ => none⟩

/-- A database that rejects inserts for source code `AYU1`. -/
def envFailA : DBEnv :=
  ⟨fun r => if r.namaste_code = "AYU1" then some "SQLITE_ERROR" else none⟩

def demoMapping : Mapping :=
  { ayurveda_code := "AYU1"
    icd11_code := "SM10"
    icd11_display := some "Gastro-Intestinal, Disorder!"
    similarity_score := 1
    similarity_details := ⟨1, 1, 1, 1⟩
    confidence := Confidence.high
    ayurveda_text := "gastro intestinal disorder"
    icd11_text := "Gastro-Intestinal, Disorder!" }

def demoResult : GenResult :=
  { all := [demoMapping]
    high := [demoMapping]
    medium := []
    stats := { total := 1, highConfidence := 1, mediumConfidence := 0 } }

/-! ### Basic facts about the character classes -/

theorem word_not_space {c : Char} (h : isWordChar c = true) : isSpaceChar c = false := by
  rw [Bool.eq_false_iff]
  intro hs
  simp only [isWordChar, Bool.or_eq_true, Bool.and_eq_true, decide_eq_true_eq,
    beq_iff_eq] at h
  simp only [isSpaceChar, Bool.or_eq_true, Bool.and_eq_true, decide_eq_true_eq,
    beq_iff_eq] at hs
  omega

theorem punctToSpace_word {c : Char} (h : isWordChar c = true) :
    punctToSpace c = c := by
  simp [punctToSpace, h]

theorem punctToSpace_space {c : Char} (hs : isSpaceChar c = true) :
    punctToSpace c = c := by
  simp [punctToSpace, hs]

theorem punctToSpace_other {c : Char} (hw : isWordChar c = false)
    (hs : isSpaceChar c = false) : punctToSpace c = ' ' := by
  simp [punctToSpace, hw, hs]

theorem punctToSpace_isSpace (c : Char) :
    isSpaceChar (punctToSpace c) = !(isWordChar c) := by
  by_cases hw : isWordChar c = true
  · rw [punctToSpace_word hw, word_not_space hw, hw]
    rfl
  · rw [Bool.not_eq_true] at hw
    by_cases hs : isSpaceChar c = true
    · rw [punctToSpace_space hs, hs, hw]
      rfl
    · rw [Bool.not_eq_true] at hs
      rw [punctToSpace_other hw hs, hw]
      decide

theorem punctToSpace_isWord (c : Char) :
    isWordChar (punctToSpace c) = isWordChar c := by
  by_cases hw : isWordChar c = true
  · rw [punctToSpace_word hw]
  · rw [Bool.not_eq_true] at hw
    by_cases hs : isSpaceChar c = true
    · rw [punctToSpace_space hs]
    · rw [Bool.not_eq_true] at hs
      rw [punctToSpace_other hw hs, hw]
      decide

/-! ### Rewriting lemmas for the normalisation pipeline -/

theorem collapseWS_space_cons {c : Char} (cs : List Char) (h : isSpaceChar c = true) :
    collapseWS (c :: cs) = ' ' :: collapseWS (cs.dropWhile isSpaceChar) := by
  induction cs generalizing c with
  | nil => simp [collapseWS, h]
  | cons d cs' ih =>
    by_cases hd : isSpaceChar d = true
    · rw [List.dropWhile_cons_of_pos hd]
      calc collapseWS (c :: d :: cs') = collapseWS (d :: cs') := by
            simp [collapseWS, h, hd]
        _ = ' ' :: collapseWS (cs'.dropWhile isSpaceChar) := ih hd
    · rw [Bool.not_eq_true] at hd
      rw [List.dropWhile_cons_of_neg (by simp [hd])]
      simp [collapseWS, h, hd]

theorem collapseWS_cons_of_nonspace {c : Char} (cs : List Char)
    (h : isSpaceChar c = false) : collapseWS (c :: cs) = c :: collapseWS cs := by
  simp [collapseWS, h]

theorem collapseWS_nonspace_append {u : List Char} (y : List Char)
    (hu : ∀ x ∈ u, isSpaceChar x = false) :
    collapseWS (u ++ y) = u ++ collapseWS y := by
  induction u with
  | nil => simp
  | cons x u' ih =>
    rw [List.cons_append, collapseWS_cons_of_nonspace _ (hu x (by simp)),
      ih (fun z hz => hu z (by simp [hz])), List.cons_append]

theorem trimRight_nil : trimRight [] = [] := rfl

theorem trimRight_append_left {w : List Char} (y : List Char)
    (hw : ∀ ch ∈ w, isSpaceChar ch = false) :
    trimRight (w ++ y) = w ++ trimRight y := by
  unfold trimRight
  rw [List.reverse_append, List.dropWhile_append]
  by_cases he : (y.reverse.dropWhile isSpaceChar).isEmpty = true
  · rw [if_pos he]
    rw [List.isEmpty_iff] at he
    rw [he, List.reverse_nil, List.append_nil]
    cases hw' : w.reverse with
    | nil => simp [List.reverse_eq_nil_iff.mp hw']
    | cons a as =>
      have ha : a ∈ w := by
        have : a ∈ w.reverse := by rw [hw']; simp
        simpa using this
      rw [List.dropWhile_cons_of_neg (by simp [hw a ha]), ← hw', List.reverse_reverse]
  · rw [if_neg he, List.reverse_append, List.reverse_reverse]

theorem trimRight_cons_of_ne_nil {a : Char} {y : List Char}
    (h : trimRight y ≠ []) : trimRight (a :: y) = a :: trimRight y := by
  unfold trimRight at h ⊢
  have hne : (y.reverse.dropWhile isSpaceChar).isEmpty = false := by
    rw [List.isEmpty_eq_false]
    intro hc
    exact h (by rw [hc, List.reverse_nil])
  have : (a :: y).reverse = y.reverse ++ [a] := by simp
  rw [this, List.dropWhile_append, hne]
  simp

theorem jsTrim_space_cons {c : Char} (x : List Char) (h : isSpaceChar c = true) :
    jsTrim (c :: x) = jsTrim x := by
  unfold jsTrim
  rw [List.dropWhile_cons_of_pos h]

theorem jsTrim_cons_of_nonspace {c : Char} (x : List Char)
    (h : isSpaceChar c = false) : jsTrim (c :: x) = c :: trimRight x := by
  unfold jsTrim
  rw [List.dropWhile_cons_of_neg (by simp [h])]
  unfold trimRight
  have : (c :: x).reverse = x.reverse ++ [c] := by simp
  rw [this, List.dropWhile_append]
  by_cases he : (x.reverse.dropWhile isSpaceChar).isEmpty = true
  · rw [if_pos he]
    rw [List.isEmpty_iff] at he
    rw [he, List.dropWhile_cons_of_neg (by simp [h])]
    simp
  · rw [if_neg he]
    simp

theorem jsTrim_eq_trimRight_of_nonspace_head {c : Char} (x : List Char)
    (h : isSpaceChar c = false) : jsTrim (c :: x) = trimRight (c :: x) := by
  rw [jsTrim_cons_of_nonspace x h]
  rw [show trimRight (c :: x) = trimRight ([c] ++ x) by simp,
    trimRight_append_left x (by simp [h])]
  simp

/-! ### Rewriting lemmas for the declarative word splitter -/

theorem wordsOf_nil : wordsOf [] = [] := rfl

theorem wordsOf_singleton (c : Char) :
    wordsOf [c] = if isWordChar c then [[c]] else [] := rfl

theorem wordsOf_cons_cons (c d : Char) (l' : List Char) :
    wordsOf (c :: d :: l') =
      if isWordChar c then
        (if isWordChar d then
          (c :: (wordsOf (d :: l')).headD []) :: (wordsOf (d :: l')).tail
        else [c] :: wordsOf (d :: l'))
      else wordsOf (d :: l') := rfl

theorem wordsOf_cons_of_not_word {c : Char} (l : List Char)
    (h : isWordChar c = false) : wordsOf (c :: l) = wordsOf l := by
  cases l with
  | nil => rw [wordsOf_singleton, if_neg (by simp [h]), wordsOf_nil]
  | cons d l' => rw [wordsOf_cons_cons, if_neg (by simp [h])]

theorem wordsOf_cons_of_word {c : Char} (l : List Char) (h : isWordChar c = true) :
    wordsOf (c :: l) =
      (c :: l.takeWhile isWordChar) :: wordsOf (l.dropWhile isWordChar) := by
  induction l generalizing c with
  | nil => simp [wordsOf_singleton, h, wordsOf_nil]
  | cons d l' ih =>
    rw [wordsOf_cons_cons, if_pos h]
    by_cases hd : isWordChar d = true
    · rw [if_pos hd, ih hd, List.takeWhile_cons_of_pos hd,
        List.dropWhile_cons_of_pos hd]
      simp
    · rw [Bool.not_eq_true] at hd
      rw [if_neg (by simp [hd]), List.takeWhile_cons_of_neg (by simp [hd]),
        List.dropWhile_cons_of_neg (by simp [hd])]

theorem wordsOf_dropWhile (l : List Char) :
    wordsOf (l.dropWhile (fun c => !(isWordChar c))) = wordsOf l := by
  induction l with
  | nil => rfl
  | cons c l' ih =>
    by_cases hc : isWordChar c = true
    · rw [List.dropWhile_cons_of_neg (by simp [hc])]
    · rw [Bool.not_eq_true] at hc
      rw [List.dropWhile_cons_of_pos (by simp [hc]), ih,
        wordsOf_cons_of_not_word l' hc]

theorem dropWhile_congr_fun {α : Type} {p q : α → Bool} (h : ∀ x, p x = q x)
    (l : List α) : l.dropWhile p = l.dropWhile q := by
  congr 1
  funext x
  exact h x

theorem dropWhile_space_map_punct (l : List Char) :
    (l.map punctToSpace).dropWhile isSpaceChar
      = (l.dropWhile (fun x => !(isWordChar x))).map punctToSpace := by
  rw [List.dropWhile_map]
  congr 1
  apply dropWhile_congr_fun
  intro x
  exact punctToSpace_isSpace x

/-- Core equivalence: the normalisation pipeline (punctuation to spaces,
whitespace collapsing, trimming) produces exactly the maximal word-character
runs of its input joined by single spaces. -/
theorem joinWords_cons (w : List Char) (ws : List (List Char)) :
    joinWords (w :: ws) = w ++ (if ws.isEmpty then [] else ' ' :: joinWords ws) := by
  cases ws with
  | nil => simp [joinWords]
  | cons w2 ws' => simp [joinWords]

/-- Core equivalence: the normalisation pipeline (punctuation to spaces,
whitespace collapsing, trimming) produces exactly the maximal word-character
runs of its input joined by single spaces. -/
theorem pipeline_eq_joinWords :
    ∀ (n : Nat) (m : List Char), m.length ≤ n →
      jsTrim (collapseWS (m.map punctToSpace)) = joinWords (wordsOf m) := by
  intro n
  induction n with
  | zero =>
    intro m hm
    have hnil : m = [] := List.eq_nil_of_length_eq_zero (Nat.le_zero.mp hm)
    subst hnil
    rfl
  | succ n ih =>
    have space_tail : ∀ u : List Char, u.length ≤ n →
        (∀ e u2, u = e :: u2 → isWordChar e = true) →
        trimRight (' ' :: collapseWS (u.map punctToSpace))
          = if (wordsOf u).isEmpty then [] else ' ' :: joinWords (wordsOf u) := by
      intro u hulen huhead
      match u with
      | [] => decide
      | e :: u2 =>
        have he : isWordChar e = true := huhead e u2 rfl
        have hY := ih (e :: u2) hulen
        have hYhead : collapseWS ((e :: u2).map punctToSpace)
            = e :: collapseWS (u2.map punctToSpace) := by
          rw [List.map_cons, punctToSpace_word he,
            collapseWS_cons_of_nonspace _ (word_not_space he)]
        have hYtrim : trimRight (collapseWS ((e :: u2).map punctToSpace))
            = joinWords (wordsOf (e :: u2)) := by
          rw [hYhead, ← jsTrim_eq_trimRight_of_nonspace_head _ (word_not_space he),
            ← hYhead, hY]
        have hne : trimRight (collapseWS ((e :: u2).map punctToSpace)) ≠ [] := by
          rw [hYtrim, wordsOf_cons_of_word _ he]
          cases wordsOf (u2.dropWhile isWordChar) with
          | nil => simp [joinWords]
          | cons a as => simp [joinWords]
        rw [show (' ' :: collapseWS ((e :: u2).map punctToSpace))
            = ' ' :: collapseWS ((e :: u2).map punctToSpace) from rfl]
        rw [trimRight_cons_of_ne_nil hne, hYtrim]
        rw [wordsOf_cons_of_word _ he]
        simp
    have tail_eq : ∀ r : List Char, r.length ≤ n →
        (∀ d r2, r = d :: r2 → isWordChar d = false) →
        trimRight (collapseWS (r.map punctToSpace))
          = if (wordsOf r).isEmpty then [] else ' ' :: joinWords (wordsOf r) := by
      intro r hrlen hrhead
      match r with
      | [] => simp [wordsOf_nil, trimRight_nil, collapseWS]
      | d :: r2 =>
        have hd : isWordChar d = false := hrhead d r2 rfl
        have hds : isSpaceChar (punctToSpace d) = true := by
          rw [punctToSpace_isSpace, hd]
          rfl
        rw [List.map_cons, collapseWS_space_cons _ hds, dropWhile_space_map_punct,
          wordsOf_cons_of_not_word r2 hd, ← wordsOf_dropWhile r2]
        refine space_tail (r2.dropWhile (fun x => !(isWordChar x))) ?_ ?_
        · have h1 : (r2.dropWhile (fun x => !(isWordChar x))).length ≤ r2.length :=
            (List.dropWhile_sublist _).length_le
          simp only [List.length_cons] at hrlen
          omega
        · intro e u2 heq
          have h0 := List.head?_dropWhile_not (fun x => !(isWordChar x)) r2
          rw [heq] at h0
          simpa using h0
    intro m hm
    match m with
    | [] => rfl
    | c :: m' =>
      have hm2 : m'.length ≤ n := by
        simp only [List.length_cons] at hm
        omega
      by_cases hw : isWordChar c = true
      · -- head is a word character
        have hcs : isSpaceChar c = false := word_not_space hw
        have hwword : ∀ x ∈ m'.takeWhile isWordChar, isWordChar x = true :=
          fun x hx => List.mem_takeWhile_imp hx
        have hmapw : (m'.takeWhile isWordChar).map punctToSpace
            = m'.takeWhile isWordChar := by
          rw [List.map_congr_left (fun x hx => punctToSpace_word (hwword x hx))]
          simp
        rw [wordsOf_cons_of_word m' hw, List.map_cons, punctToSpace_word hw]
        conv_lhs => rw [show m' = m'.takeWhile isWordChar ++ m'.dropWhile isWordChar
          from (List.takeWhile_append_dropWhile isWordChar m').symm]
        rw [List.map_append, hmapw,
          show c :: (m'.takeWhile isWordChar
              ++ (m'.dropWhile isWordChar).map punctToSpace)
            = (c :: m'.takeWhile isWordChar)
              ++ (m'.dropWhile isWordChar).map punctToSpace from rfl,
          collapseWS_nonspace_append _
            (by
              intro x hx
              rcases List.mem_cons.mp hx with h1 | h2
              · rw [h1]; exact hcs
              · exact word_not_space (hwword x h2)),
          show (c :: m'.takeWhile isWordChar)
              ++ collapseWS ((m'.dropWhile isWordChar).map punctToSpace)
            = c :: (m'.takeWhile isWordChar
              ++ collapseWS ((m'.dropWhile isWordChar).map punctToSpace)) from rfl,
          jsTrim_cons_of_nonspace _ hcs,
          trimRight_append_left _ (fun x hx => word_not_space (hwword x hx)),
          joinWords_cons,
          tail_eq (m'.dropWhile isWordChar)
            (le_trans (List.dropWhile_sublist _).length_le hm2)
            (by
              intro d r2 heq
              have h0 := List.head?_dropWhile_not isWordChar m'
              rw [heq] at h0
              simpa using h0)]
        simp
      · -- head is not a word character: it is erased by the pipeline
        rw [Bool.not_eq_true] at hw
        have hsp : isSpaceChar (punctToSpace c) = true := by
          rw [punctToSpace_isSpace, hw]
          rfl
        rw [List.map_cons, collapseWS_space_cons _ hsp,
          jsTrim_space_cons _ (by decide), dropWhile_space_map_punct,
          ih (m'.dropWhile (fun x => !(isWordChar x)))
            (le_trans (List.dropWhile_sublist _).length_le hm2),
          wordsOf_dropWhile m', wordsOf_cons_of_not_word m' hw]

/-- Claim helper: the full `normalizeText` equals the declarative
word-splitting description. -/
theorem normalizeList_eq (l : List Char) :
    normalizeList l = joinWords (wordsOf (l.map jsToLower)) := by
  unfold normalizeList
  have h := pipeline_eq_joinWords (l.map jsToLower).length (l.map jsToLower) le_rfl
  exact h

theorem fuzzTest_spec : FuzzSpec fuzzTest := by
  constructor <;> intro a <;> first
    | (intro b; simp only [fuzzTest]; split <;> omega)
    | (intro h; simp [fuzzTest])

example : normalizeText (some "!") = "" := by decide
example : normalizeText (some "Dia-betes  Mellitus!") = "dia betes mellitus" := by decide

/-! ### Evaluation lemmas for the scorer -/

theorem truthy_of_normalize_ne {A : Option String} (h : normalizeText A ≠ "") :
    truthy A = true := by
  match A with
  | none => exact absurd rfl h
  | some s =>
    by_cases hs : s = ""
    · subst hs
      exact absurd (by simp [normalizeText]) h
    · simp [truthy, hs]

theorem calculateSimilarity_zero (fz : Fuzz) {A B : Option String}
    (h : normalizeText A = "" ∨ normalizeText B = "") (method : String) :
    calculateSimilarity fz A B method = 0 := by
  unfold calculateSimilarity
  by_cases hA : truthy A = true
  · by_cases hB : truthy B = true
    · rw [hA, hB]
      simp only [Bool.not_true, Bool.or_self, Bool.false_eq_true, if_false]
      rcases h with h | h <;> simp [h]
    · rw [Bool.not_eq_true] at hB
      simp [hB]
  · rw [Bool.not_eq_true] at hA
    simp [hA]

theorem calculateSimilarity_dispatch (fz : Fuzz) {A B : Option String}
    (hA : normalizeText A ≠ "") (hB : normalizeText B ≠ "") (method : String) :
    calculateSimilarity fz A B method =
      if method = "ratio" then (fz.ratio (normalizeText A) (normalizeText B) : ℚ) / 100
      else if method = "partial_ratio" then
        (fz.partRatio (normalizeText A) (normalizeText B) : ℚ) / 100
      else if method = "token_sort_ratio" then
        (fz.tokenSortRatio (normalizeText A) (normalizeText B) : ℚ) / 100
      else if method = "token_set_ratio" then
        (fz.tokenSetRatio (normalizeText A) (normalizeText B) : ℚ) / 100
      else (fz.ratio (normalizeText A) (normalizeText B) : ℚ) / 100 := by
  unfold calculateSimilarity
  rw [truthy_of_normalize_ne hA, truthy_of_normalize_ne hB]
  simp [hA, hB]

theorem calculateCompositeSimilarity_zero (fz : Fuzz) {A B : Option String}
    (h : normalizeText A = "" ∨ normalizeText B = "") :
    calculateCompositeSimilarity fz A B =
      { composite := 0, individual := ⟨0, 0, 0, 0⟩ } := by
  unfold calculateCompositeSimilarity
  simp only [List.map_cons, List.map_nil, calculateSimilarity_zero fz h,
    List.zip_cons_cons, List.zip_nil_right, List.foldl_cons, List.foldl_nil,
    List.getD_cons_zero, List.getD_cons_succ]
  norm_num

theorem calculateCompositeSimilarity_formula (fz : Fuzz) {A B : Option String}
    (hA : normalizeText A ≠ "") (hB : normalizeText B ≠ "") :
    calculateCompositeSimilarity fz A B =
      { composite :=
          0.4 * ((fz.ratio (normalizeText A) (normalizeText B) : ℚ) / 100)
          + 0.2 * ((fz.partRatio (normalizeText A) (normalizeText B) : ℚ) / 100)
          + 0.2 * ((fz.tokenSortRatio (normalizeText A) (normalizeText B) : ℚ) / 100)
          + 0.2 * ((fz.tokenSetRatio (normalizeText A) (normalizeText B) : ℚ) / 100)
        individual :=
          { ratio := (fz.ratio (normalizeText A) (normalizeText B) : ℚ) / 100
            partRatio := (fz.partRatio (normalizeText A) (normalizeText B) : ℚ) / 100
            tokenSortRatio :=
              (fz.tokenSortRatio (normalizeText A) (normalizeText B) : ℚ) / 100
            tokenSetRatio :=
              (fz.tokenSetRatio (normalizeText A) (normalizeText B) : ℚ) / 100 } } := by
  unfold calculateCompositeSimilarity
  have h1 : ("partial_ratio" : String) ≠ "ratio" := by decide
  have h2 : ("token_sort_ratio" : String) ≠ "ratio" := by decide
  have h3 : ("token_sort_ratio" : String) ≠ "partial_ratio" := by decide
  have h4 : ("token_set_ratio" : String) ≠ "ratio" := by decide
  have h5 : ("token_set_ratio" : String) ≠ "partial_ratio" := by decide
  have h6 : ("token_set_ratio" : String) ≠ "token_sort_ratio" := by decide
  simp only [List.map_cons, List.map_nil, calculateSimilarity_dispatch fz hA hB,
    List.zip_cons_cons, List.zip_nil_right, List.foldl_cons, List.foldl_nil,
    List.getD_cons_zero, List.getD_cons_succ, h1, h2, h3, h4, h5, h6,
    if_neg, if_pos, ite_true, ite_false, if_true, if_false, eq_self_iff_true,
    ne_eq, not_false_eq_true]
  norm_num
  ring

/-! ### Bounds on the composite score -/

theorem composite_le_one {fz : Fuzz} (hs : FuzzSpec fz) (A B : Option String) :
    (calculateCompositeSimilarity fz A B).composite ≤ 1 := by
  by_cases hA : normalizeText A = ""
  · rw [calculateCompositeSimilarity_zero fz (Or.inl hA)]
    norm_num
  · by_cases hB : normalizeText B = ""
    · rw [calculateCompositeSimilarity_zero fz (Or.inr hB)]
      norm_num
    · rw [calculateCompositeSimilarity_formula fz hA hB]
      have b1 : (fz.ratio (normalizeText A) (normalizeText B) : ℚ) ≤ 100 := by
        exact_mod_cast hs.ratio_le _ _
      have b2 : (fz.partRatio (normalizeText A) (normalizeText B) : ℚ) ≤ 100 := by
        exact_mod_cast hs.partRatio_le _ _
      have b3 : (fz.tokenSortRatio (normalizeText A) (normalizeText B) : ℚ) ≤ 100 := by
        exact_mod_cast hs.tokenSortRatio_le _ _
      have b4 : (fz.tokenSetRatio (normalizeText A) (normalizeText B) : ℚ) ≤ 100 := by
        exact_mod_cast hs.tokenSetRatio_le _ _
      have p1 : (0 : ℚ) ≤ (fz.ratio (normalizeText A) (normalizeText B) : ℚ) := by
        positivity
      simp only
      linarith

theorem composite_self_eq_one {fz : Fuzz} (hs : FuzzSpec fz) (T : Option String)
    (hT : normalizeText T ≠ "") :
    (calculateCompositeSimilarity fz T T).composite = 1 := by
  rw [calculateCompositeSimilarity_formula fz hT hT]
  have e1 := hs.ratio_self _ hT
  have e2 := hs.partRatio_self _ hT
  have e3 := hs.tokenSortRatio_self _ hT
  have e4 := hs.tokenSetRatio_self _ hT
  simp only [e1, e2, e3, e4]
  norm_num

/-! ### Sorting lemmas -/

theorem mem_insertDesc {x y : Mapping} {l : List Mapping} :
    y ∈ insertDesc x l ↔ y = x ∨ y ∈ l := by
  induction l with
  | nil => simp [insertDesc]
  | cons z zs ih =>
    unfold insertDesc
    split
    · simp [or_comm, or_assoc, or_left_comm]
    · simp only [List.mem_cons, ih]
      tauto

theorem mem_sortDesc {y : Mapping} {l : List Mapping} :
    y ∈ sortDesc l ↔ y ∈ l := by
  induction l with
  | nil => simp [sortDesc]
  | cons x xs ih =>
    unfold sortDesc
    rw [mem_insertDesc]
    simp [ih]

theorem pairwise_insertDesc {x : Mapping} {l : List Mapping}
    (h : l.Pairwise (fun a b => b.similarity_score ≤ a.similarity_score)) :
    (insertDesc x l).Pairwise (fun a b => b.similarity_score ≤ a.similarity_score) := by
  induction l with
  | nil => simp [insertDesc]
  | cons z zs ih =>
    rw [List.pairwise_cons] at h
    unfold insertDesc
    split
    · rename_i hle
      rw [List.pairwise_cons]
      refine ⟨?_, List.pairwise_cons.mpr h⟩
      intro w hw
      rcases List.mem_cons.mp hw with h1 | h2
      · rw [h1]; exact hle
      · exact le_trans (h.1 w h2) hle
    · rename_i hgt
      rw [List.pairwise_cons]
      refine ⟨?_, ih h.2⟩
      intro w hw
      rcases mem_insertDesc.mp hw with h1 | h2
      · rw [h1]
        exact le_of_lt (lt_of_not_le hgt)
      · exact h.1 w h2

theorem sortDesc_sorted (l : List Mapping) :
    (sortDesc l).Pairwise (fun a b => b.similarity_score ≤ a.similarity_score) := by
  induction l with
  | nil => simp [sortDesc]
  | cons x xs ih => exact pairwise_insertDesc ih

theorem filter_score_insertDesc (x : Mapping) (l : List Mapping) (q : ℚ) :
    (insertDesc x l).filter (fun m => m.similarity_score = q)
      = if x.similarity_score = q
        then x :: l.filter (fun m => m.similarity_score = q)
        else l.filter (fun m => m.similarity_score = q) := by
  induction l with
  | nil =>
    unfold insertDesc
    by_cases hx : x.similarity_score = q <;> simp [hx]
  | cons y ys ih =>
    unfold insertDesc
    by_cases hle : y.similarity_score ≤ x.similarity_score
    · rw [if_pos hle]
      by_cases hx : x.similarity_score = q <;> simp [hx]
    · rw [if_neg hle]
      by_cases hx : x.similarity_score = q
      · have hy : ¬(y.similarity_score = q) := by
          intro hyq
          exact hle (by rw [hyq, ← hx])
        rw [if_pos hx]
        simp only [List.filter_cons]
        rw [if_neg (by simpa using hy), ih, if_pos hx]
        simp [hy]
      · rw [if_neg hx]
        simp only [List.filter_cons]
        rw [ih, if_neg hx]

theorem filter_score_sortDesc (l : List Mapping) (q : ℚ) :
    (sortDesc l).filter (fun m => m.similarity_score = q)
      = l.filter (fun m => m.similarity_score = q) := by
  induction l with
  | nil => simp [sortDesc]
  | cons x xs ih =>
    unfold sortDesc
    rw [filter_score_insertDesc]
    by_cases hx : x.similarity_score = q
    · rw [if_pos hx, ih]
      simp [hx]
    · rw [if_neg hx, ih]
      simp [hx]

/-! ### Membership facts about `candidates` -/

theorem mem_candidates {fz : Fuzz} {a : CodeRecord} {ts : List CodeRecord}
    {m : Mapping} (h : m ∈ candidates fz a ts) :
    similarityThreshold ≤ m.similarity_score ∧
      m.confidence = getConfidenceLevel m.similarity_score := by
  obtain ⟨t, _, hmk⟩ := List.mem_filterMap.mp h
  unfold mkMatch at hmk
  by_cases hcond : similarityThreshold ≤
      (calculateCompositeSimilarity fz (some (createSearchableText a))
        (some (createSearchableText t))).composite
  · rw [if_pos hcond, Option.some.injEq] at hmk
    subst hmk
    exact ⟨hcond, rfl⟩
  · rw [if_neg hcond] at hmk
    exact absurd hmk (by simp)

theorem mem_findBestMatches {fz : Fuzz} {a : CodeRecord} {ts : List CodeRecord}
    {k : ℕ} {m : Mapping} (h : m ∈ findBestMatches fz a ts k) :
    similarityThreshold ≤ m.similarity_score ∧
      m.confidence = getConfidenceLevel m.similarity_score := by
  unfold findBestMatches at h
  exact mem_candidates (mem_sortDesc.mp (List.mem_of_mem_take h))

theorem autoRow_mappingRow (m : Mapping) : autoRow (mappingRow m) :=
  ⟨rfl, rfl, rfl⟩

theorem noDupKeys_insertOrReplace (row : MappingRow) {st : Store}
    (h : NoDupKeys st) : NoDupKeys (applyInsertOrReplace row st) := by
  unfold NoDupKeys applyInsertOrReplace
  rw [List.pairwise_append]
  refine ⟨h.filter _, by simp, ?_⟩
  intro a ha b hb
  rw [List.mem_singleton] at hb
  subst hb
  have := List.of_mem_filter ha
  simpa using this

theorem noDupKeys_insertOrIgnore (row : MappingRow) {st : Store}
    (h : NoDupKeys st) : NoDupKeys (applyInsertOrIgnore row st) := by
  unfold applyInsertOrIgnore
  by_cases hk : hasKey st (rowKey row) = true
  · rw [if_pos hk]
    exact h
  · rw [if_neg hk]
    unfold NoDupKeys
    rw [List.pairwise_append]
    refine ⟨h, by simp, ?_⟩
    intro a ha b hb
    rw [List.mem_singleton] at hb
    subst hb
    rw [Bool.not_eq_true] at hk
    unfold hasKey at hk
    rw [List.any_eq_false] at hk
    have := hk a ha
    simpa using this

theorem saveMappingToDatabase_ok {env : DBEnv} {ow : Bool} {m : Mapping}
    {st st' : Store} (h : saveMappingToDatabase env ow m st = .ok st') :
    env.fail (mappingRow m) = none ∧
      st' = (if ow then applyInsertOrReplace (mappingRow m) st
             else applyInsertOrIgnore (mappingRow m) st) := by
  unfold saveMappingToDatabase at h
  cases hf : env.fail (mappingRow m) with
  | some msg =>
    rw [hf] at h
    exact absurd h (by simp)
  | none =>
    rw [hf] at h
    simp only [Except.ok.injEq] at h
    exact ⟨rfl, h.symm⟩

theorem noDupKeys_save {env : DBEnv} {ow : Bool} {m : Mapping} {st st' : Store}
    (h : saveMappingToDatabase env ow m st = .ok st') (hst : NoDupKeys st) :
    NoDupKeys st' := by
  obtain ⟨-, h2⟩ := saveMappingToDatabase_ok h
  subst h2
  by_cases how : ow = true
  · rw [if_pos how]
    exact noDupKeys_insertOrReplace _ hst
  · rw [if_neg how]
    exact noDupKeys_insertOrIgnore _ hst

/-! ### Shape of a successful `generateMappings` run -/

theorem processMatches_ok_shape {env : DBEnv} {sv ow : Bool} :
    ∀ (ms all : List Mapping) (st : Store) (calls : List MappingRow)
      {acc' : GenAcc},
      processMatches env sv ow ms (all, st, calls) = .ok acc' →
      acc'.1 = all ++ ms ∧
      acc'.2.2 = calls ++ (if sv then ms.map mappingRow else []) ∧
      (NoDupKeys st → NoDupKeys acc'.2.1) := by
  intro ms
  induction ms with
  | nil =>
    intro all st calls acc' h
    simp only [processMatches, Except.ok.injEq] at h
    subst h
    simp
  | cons m ms ih =>
    intro all st calls acc' h
    unfold processMatches at h
    cases sv with
    | true =>
      rw [if_pos rfl] at h
      cases hs : saveMappingToDatabase env ow m st with
      | error msg =>
        rw [hs] at h
        exact absurd h (by simp)
      | ok st2 =>
        rw [hs] at h
        obtain ⟨h1, h2, h3⟩ := ih (all ++ [m]) st2 (calls ++ [mappingRow m]) h
        refine ⟨?_, ?_, ?_⟩
        · rw [h1]
          simp
        · rw [h2]
          simp
        · intro hst
          exact h3 (noDupKeys_save hs hst)
    | false =>
      rw [if_neg (by simp)] at h
      obtain ⟨h1, h2, h3⟩ := ih (all ++ [m]) st calls h
      refine ⟨?_, ?_, ?_⟩
      · rw [h1]
        simp
      · rw [h2]
        simp
      · exact h3

theorem runSources_ok_shape {fz : Fuzz} {env : DBEnv} {tgts : List CodeRecord}
    {maxM : ℕ} {sv ow : Bool} :
    ∀ (srcs : List CodeRecord) (all : List Mapping) (st : Store)
      (calls : List MappingRow) {acc' : GenAcc},
      runSources fz env tgts maxM sv ow srcs (all, st, calls) = .ok acc' →
      acc'.1 = all ++ (srcs.map (fun a => findBestMatches fz a tgts maxM)).flatten ∧
      acc'.2.2 = calls ++ (if sv
        then ((srcs.map (fun a => findBestMatches fz a tgts maxM)).flatten).map mappingRow
        else []) ∧
      (NoDupKeys st → NoDupKeys acc'.2.1) := by
  intro srcs
  induction srcs with
  | nil =>
    intro all st calls acc' h
    simp only [runSources, Except.ok.injEq] at h
    subst h
    simp
  | cons a rest ih =>
    intro all st calls acc' h
    unfold runSources at h
    cases hp : processMatches env sv ow (findBestMatches fz a tgts maxM)
        (all, st, calls) with
    | error e =>
      rw [hp] at h
      exact absurd h (by simp)
    | ok acc1 =>
      rw [hp] at h
      obtain ⟨p1, p2, p3⟩ := processMatches_ok_shape _ all st calls hp
      obtain ⟨r1, r2, r3⟩ := ih acc1.1 acc1.2.1 acc1.2.2 (by
        rw [show (acc1.1, acc1.2.1, acc1.2.2) = acc1 from rfl]
        exact h)
      refine ⟨?_, ?_, ?_⟩
      · rw [r1, p1]
        simp
      · rw [r2, p2]
        by_cases hsv : sv = true <;> simp [hsv]
      · intro hst
        exact r3 (p3 hst)

theorem generateMappings_ok_inv {fz : Fuzz} {env : DBEnv}
    {srcs tgts : List CodeRecord} {opts : GenOptions} {st st' : Store}
    {r : GenResult} {calls : List MappingRow}
    (h : generateMappings fz env srcs tgts opts st = .ok (r, st', calls)) :
    r.high = r.all.filter (fun m => m.confidence = Confidence.high) ∧
    r.medium = r.all.filter (fun m => m.confidence = Confidence.medium) ∧
    r.stats.total = r.all.length ∧
    r.stats.highConfidence = r.high.length ∧
    r.stats.mediumConfidence = r.medium.length ∧
    r.all = (srcs.map
      (fun a => findBestMatches fz a tgts opts.maxMatchesPerCode)).flatten ∧
    calls = (if opts.saveToDatabase
      then r.all.map mappingRow else []) ∧
    (NoDupKeys st → NoDupKeys st') := by
  unfold generateMappings at h
  cases hrun : runSources fz env tgts opts.maxMatchesPerCode opts.saveToDatabase
      opts.overwriteExisting srcs ([], st, []) with
  | error e =>
    rw [hrun] at h
    exact absurd h (by simp)
  | ok acc =>
    rw [hrun] at h
    obtain ⟨s1, s2, s3⟩ := runSources_ok_shape srcs [] st [] (by rw [hrun])
    simp only [Except.ok.injEq, Prod.mk.injEq] at h
    obtain ⟨hr, hst, hcalls⟩ := h
    subst hr
    rw [List.nil_append] at s1 s2
    refine ⟨rfl, rfl, rfl, rfl, rfl, ?_, ?_, ?_⟩
    · exact s1
    · rw [← hcalls, s2, s1]
    · intro hnd
      rw [← hst]
      exact s3 hnd

theorem confidence_not_low {q : ℚ} (h : similarityThreshold ≤ q) :
    getConfidenceLevel q ≠ Confidence.low := by
  unfold getConfidenceLevel
  by_cases h8 : highConfidenceThreshold ≤ q
  · simp [h8]
  · rw [if_neg h8, if_pos h]
    simp

theorem length_filter_partition :
    ∀ l : List Mapping, (∀ m ∈ l, m.confidence ≠ Confidence.low) →
      l.length = (l.filter (fun m => m.confidence = Confidence.high)).length +
        (l.filter (fun m => m.confidence = Confidence.medium)).length := by
  intro l
  induction l with
  | nil => simp
  | cons m l ih =>
    intro h
    have hm := h m (by simp)
    have hrest := ih (fun x hx => h x (by simp [hx]))
    cases hc : m.confidence with
    | high =>
      simp only [List.filter_cons, hc, List.length_cons]
      rw [if_pos (by decide), if_neg (by decide)]
      simp only [List.length_cons]
      omega
    | medium =>
      simp only [List.filter_cons, hc, List.length_cons]
      rw [if_neg (by decide), if_pos (by decide)]
      simp only [List.length_cons]
      omega
    | low => exact absurd hc hm

/-! ### Error propagation in `generateMappings` -/

theorem processMatches_error_head {env : DBEnv} {ow : Bool} {m : Mapping}
    {ms : List Mapping} {all : List Mapping} {st : Store}
    {calls : List MappingRow} {msg : String}
    (hf : env.fail (mappingRow m) = some msg) :
    processMatches env true ow (m :: ms) (all, st, calls)
      = .error (msg, st, calls ++ [mappingRow m]) := by
  unfold processMatches
  rw [if_pos rfl]
  have hs : saveMappingToDatabase env ow m st = .error msg := by
    unfold saveMappingToDatabase
    rw [hf]
  rw [hs]

theorem generateMappings_error_of_first_save_fails {fz : Fuzz} {env : DBEnv}
    {s : CodeRecord} {rest tgts : List CodeRecord} {opts : GenOptions}
    {st : Store} {m : Mapping} {ms : List Mapping} {msg : String}
    (hsv : opts.saveToDatabase = true)
    (hm : findBestMatches fz s tgts opts.maxMatchesPerCode = m :: ms)
    (hf : env.fail (mappingRow m) = some msg) :
    generateMappings fz env (s :: rest) tgts opts st
      = .error (msg, st, [mappingRow m]) := by
  unfold generateMappings runSources
  rw [hsv, hm, processMatches_error_head hf]
  rfl

/-! ### Behaviour on an empty target collection -/

theorem findBestMatches_nil_targets (fz : Fuzz) (a : CodeRecord) (k : ℕ) :
    findBestMatches fz a [] k = [] := by
  unfold findBestMatches
  rw [show sortDesc (candidates fz a []) = [] from rfl, List.take_nil]

theorem generateMappings_nil_targets (fz : Fuzz) (env : DBEnv)
    (srcs : List CodeRecord) (opts : GenOptions) (st : Store) :
    generateMappings fz env srcs [] opts st =
      .ok ({ all := [], high := [], medium := [],
             stats := { total := 0, highConfidence := 0, mediumConfidence := 0 } },
           st, []) := by
  have hrun : ∀ srcs2 : List CodeRecord,
      runSources fz env [] opts.maxMatchesPerCode opts.saveToDatabase
        opts.overwriteExisting srcs2 (([] : List Mapping), st, ([] : List MappingRow))
      = .ok (([] : List Mapping), st, ([] : List MappingRow)) := by
    intro srcs2
    induction srcs2 with
    | nil => rfl
    | cons a rest ih =>
      unfold runSources
      rw [findBestMatches_nil_targets]
      simp only [processMatches]
      exact ih
  unfold generateMappings
  rw [hrun srcs]
  rfl

theorem demoMatch_eval :
    calculateCompositeSimilarity fuzzTest (some (createSearchableText srcRec))
      (some (createSearchableText tgtRec)) = ⟨1, ⟨1, 1, 1, 1⟩⟩ := by
  have hA : normalizeText (some (createSearchableText srcRec))
      = "gastro intestinal disorder" := by decide
  have hB : normalizeText (some (createSearchableText tgtRec))
      = "gastro intestinal disorder" := by decide
  rw [calculateCompositeSimilarity_formula fuzzTest
    (by rw [hA]; decide) (by rw [hB]; decide), hA, hB]
  norm_num [fuzzTest]

theorem demo_mkMatch :
    mkMatch fuzzTest srcRec (createSearchableText srcRec) tgtRec
      = some demoMapping := by
  unfold mkMatch
  simp only [demoMatch_eval]
  rw [if_pos (show similarityThreshold ≤ (1 : ℚ) by norm_num [similarityThreshold])]
  rw [show getConfidenceLevel (1 : ℚ) = Confidence.high from by
    unfold getConfidenceLevel
    rw [if_pos (by norm_num [highConfidenceThreshold])]]
  rfl

theorem demo_candidates :
    candidates fuzzTest srcRec [tgtRec] = [demoMapping] := by
  unfold candidates
  simp [demo_mkMatch]

theorem demo_findBestMatches3 :
    findBestMatches fuzzTest srcRec [tgtRec] 3 = [demoMapping] := by
  unfold findBestMatches
  rw [demo_candidates]
  rfl

theorem demo_findBestMatches5 :
    findBestMatches fuzzTest srcRec [tgtRec] 5 = [demoMapping] := by
  unfold findBestMatches
  rw [demo_candidates]
  rfl

theorem demo_generateMappings :
    generateMappings fuzzTest env0 [srcRec] [tgtRec] defaultGenOptions []
      = .ok (demoResult, [mappingRow demoMapping], [mappingRow demoMapping]) := by
  have h1 : runSources fuzzTest env0 [tgtRec] defaultGenOptions.maxMatchesPerCode
      defaultGenOptions.saveToDatabase defaultGenOptions.overwriteExisting [srcRec]
      (([] : List Mapping), ([] : Store), ([] : List MappingRow))
      = .ok ([demoMapping], [mappingRow demoMapping], [mappingRow demoMapping]) := by
    show runSources fuzzTest env0 [tgtRec] 3 true false [srcRec]
      (([] : List Mapping), ([] : Store), ([] : List MappingRow))
      = .ok ([demoMapping], [mappingRow demoMapping], [mappingRow demoMapping])
    unfold runSources
    rw [demo_findBestMatches3]
    unfold processMatches
    rw [if_pos rfl,
      show saveMappingToDatabase env0 false demoMapping ([] : Store)
        = .ok [mappingRow demoMapping] from rfl]
    rfl
  unfold generateMappings
  rw [h1]
  rfl

/-! ### Every insert attempt of a successful run succeeded -/

theorem processMatches_ok_saves {env : DBEnv} {sv ow : Bool} :
    ∀ (ms all : List Mapping) (st : Store) (calls : List MappingRow)
      {acc' : GenAcc},
      processMatches env sv ow ms (all, st, calls) = .ok acc' →
      (∀ r ∈ calls, env.fail r = none) → ∀ r ∈ acc'.2.2, env.fail r = none := by
  intro ms
  induction ms with
  | nil =>
    intro all st calls acc' h hc
    simp only [processMatches, Except.ok.injEq] at h
    subst h
    exact hc
  | cons m ms ih =>
    intro all st calls acc' h hc
    unfold processMatches at h
    cases sv with
    | true =>
      rw [if_pos rfl] at h
      cases hs : saveMappingToDatabase env ow m st with
      | error msg =>
        rw [hs] at h
        exact absurd h (by simp)
      | ok st2 =>
        rw [hs] at h
        refine ih (all ++ [m]) st2 (calls ++ [mappingRow m]) h ?_
        intro r hr
        rcases List.mem_append.mp hr with h1 | h2
        · exact hc r h1
        · rw [List.mem_singleton] at h2
          subst h2
          exact (saveMappingToDatabase_ok hs).1
    | false =>
      rw [if_neg (by simp)] at h
      exact ih (all ++ [m]) st calls h hc

theorem runSources_ok_saves {fz : Fuzz} {env : DBEnv} {tgts : List CodeRecord}
    {maxM : ℕ} {sv ow : Bool} :
    ∀ (srcs : List CodeRecord) (all : List Mapping) (st : Store)
      (calls : List MappingRow) {acc' : GenAcc},
      runSources fz env tgts maxM sv ow srcs (all, st, calls) = .ok acc' →
      (∀ r ∈ calls, env.fail r = none) → ∀ r ∈ acc'.2.2, env.fail r = none := by
  intro srcs
  induction srcs with
  | nil =>
    intro all st calls acc' h hc
    simp only [runSources, Except.ok.injEq] at h
    subst h
    exact hc
  | cons a rest ih =>
    intro all st calls acc' h hc
    unfold runSources at h
    cases hp : processMatches env sv ow (findBestMatches fz a tgts maxM)
        (all, st, calls) with
    | error e =>
      rw [hp] at h
      exact absurd h (by simp)
    | ok acc1 =>
      rw [hp] at h
      have h1 := processMatches_ok_saves _ all st calls hp hc
      exact ih acc1.1 acc1.2.1 acc1.2.2
        (by rw [show (acc1.1, acc1.2.1, acc1.2.2) = acc1 from rfl]; exact h) h1

theorem generateMappings_ok_saves {fz : Fuzz} {env : DBEnv}
    {srcs tgts : List CodeRecord} {opts : GenOptions} {st st' : Store}
    {r : GenResult} {calls : List MappingRow}
    (h : generateMappings fz env srcs tgts opts st = .ok (r, st', calls)) :
    ∀ row ∈ calls, env.fail row = none := by
  unfold generateMappings at h
  cases hrun : runSources fz env tgts opts.maxMatchesPerCode opts.saveToDatabase
      opts.overwriteExisting srcs ([], st, []) with
  | error e =>
    rw [hrun] at h
    exact absurd h (by simp)
  | ok acc =>
    rw [hrun] at h
    simp only [Except.ok.injEq, Prod.mk.injEq] at h
    obtain ⟨-, -, hcalls⟩ := h
    have := runSources_ok_saves srcs [] st [] (by rw [hrun]) (by simp)
    rw [← hcalls]
    exact this

/-! ### Claims -/

/-- Claim C1 (amended): a persistence failure while saving one mapping is
logged and re-thrown by `saveMappingToDatabase`, and `generateMappings`
awaits the save without catching, so the first failing save rejects the
whole run: the remaining mappings and source codes are not processed and
no `{all, high, medium, stats}` result is returned.  Conversely a run
that returns its result had every attempted insert succeed. -/
theorem claim_C1 (fz : Fuzz) (env : DBEnv) :
    (∀ (s : CodeRecord) (rest tgts : List CodeRecord) (opts : GenOptions)
      (st : Store) (m : Mapping) (ms : List Mapping) (msg : String),
      opts.saveToDatabase = true →
      findBestMatches fz s tgts opts.maxMatchesPerCode = m :: ms →
      env.fail (mappingRow m) = some msg →
      generateMappings fz env (s :: rest) tgts opts st
        = .error (msg, st, [mappingRow m])) ∧
    (∀ (srcs tgts : List CodeRecord) (opts : GenOptions) (st : Store)
      (r : GenResult) (st' : Store) (calls : List MappingRow),
      generateMappings fz env srcs tgts opts st = .ok (r, st', calls) →
      ∀ row ∈ calls, env.fail row = none) :=
  ⟨fun _ _ _ _ _ _ _ _ hsv hm hf =>
    generateMappings_error_of_first_save_fails hsv hm hf,
   fun _ _ _ _ _ _ _ h => generateMappings_ok_saves h⟩

/-- Claim C1, counterexample to the claim as stated: with a database that
rejects the insert for source `AYU1`, a batch of two source codes against
one target aborts at the very first save with an error — the second
source code is never processed and no `{all, high, medium, stats}` result
is returned. -/
theorem claim_C1_counterexample :
    generateMappings fuzzTest envFailA [srcRec, srcRec2] [tgtRec]
      defaultGenOptions []
      = .error ("SQLITE_ERROR", [], [mappingRow demoMapping]) :=
  generateMappings_error_of_first_save_fails rfl demo_findBestMatches3 (by rfl)

/-- Claim C1, witness for the amended theorem at concrete inputs. -/
theorem claim_C1_witness :
    generateMappings fuzzTest envFailA [srcRec] [tgtRec] defaultGenOptions []
      = .error ("SQLITE_ERROR", [], [mappingRow demoMapping]) ∧
    env0.fail (mappingRow demoMapping) = none :=
  ⟨(claim_C1 fuzzTest envFailA).1 srcRec [] [tgtRec] defaultGenOptions []
      demoMapping [] "SQLITE_ERROR" rfl demo_findBestMatches3 (by rfl),
   (claim_C1 fuzzTest env0).2 [srcRec] [tgtRec] defaultGenOptions []
      demoResult [mappingRow demoMapping] [mappingRow demoMapping]
      demo_generateMappings (mappingRow demoMapping) (by simp)⟩

/-- Claim C2: `findBestMatches` returns at most `maxResults` entries
(default 5), and every returned entry has composite score at least the
similarity threshold 0.6; no candidate strictly below 0.6 appears. -/
theorem claim_C2 (fz : Fuzz) (a : CodeRecord) (ts : List CodeRecord) (k : ℕ) :
    (findBestMatches fz a ts k).length ≤ k ∧
    defaultMaxResults = 5 ∧
    similarityThreshold = 0.6 ∧
    ∀ m ∈ findBestMatches fz a ts k, similarityThreshold ≤ m.similarity_score := by
  refine ⟨?_, rfl, rfl, ?_⟩
  · unfold findBestMatches
    exact List.length_take_le _ _
  · intro m hm
    exact (mem_findBestMatches hm).1

/-- Claim C2, witness at concrete inputs. -/
theorem claim_C2_witness :
    (findBestMatches fuzzTest srcRec [tgtRec] 5).length ≤ 5 ∧
    similarityThreshold ≤ demoMapping.similarity_score :=
  ⟨(claim_C2 fuzzTest srcRec [tgtRec] 5).1,
   (claim_C2 fuzzTest srcRec [tgtRec] 5).2.2.2 demoMapping
     (by rw [demo_findBestMatches5]; simp)⟩

/-- Claim C3: the output of `findBestMatches` is sorted non-increasing by
composite score, and it is stable: for every score value, the output
entries with that score form a prefix of the candidate entries with that
score taken in the original target iteration order (no other tie-break). -/
theorem claim_C3 (fz : Fuzz) (a : CodeRecord) (ts : List CodeRecord) (k : ℕ) :
    (findBestMatches fz a ts k).Pairwise
      (fun x y => y.similarity_score ≤ x.similarity_score) ∧
    ∀ q : ℚ, ∃ rest : List Mapping,
      (findBestMatches fz a ts k).filter (fun m => m.similarity_score = q) ++ rest
        = (candidates fz a ts).filter (fun m => m.similarity_score = q) := by
  constructor
  · exact List.Pairwise.sublist (List.take_sublist _ _) (sortDesc_sorted _)
  · intro q
    refine ⟨((sortDesc (candidates fz a ts)).drop k).filter
      (fun m => decide (m.similarity_score = q)), ?_⟩
    unfold findBestMatches
    rw [← List.filter_append, List.take_append_drop, filter_score_sortDesc]

/-- Claim C4: every returned entry is classified `high` exactly when its
composite score is at least 0.8, and `medium` otherwise; `low` is a
reachable value of `getConfidenceLevel` but never occurs in
`findBestMatches` output because the 0.6 filter runs first. -/
theorem claim_C4 (fz : Fuzz) (a : CodeRecord) (ts : List CodeRecord) (k : ℕ) :
    (∀ m ∈ findBestMatches fz a ts k,
      m.confidence = (if highConfidenceThreshold ≤ m.similarity_score
        then Confidence.high else Confidence.medium) ∧
      m.confidence ≠ Confidence.low) ∧
    getConfidenceLevel 0 = Confidence.low ∧
    highConfidenceThreshold = 0.8 := by
  refine ⟨?_, ?_, rfl⟩
  · intro m hm
    obtain ⟨hth, hconf⟩ := mem_findBestMatches hm
    constructor
    · rw [hconf]
      unfold getConfidenceLevel
      by_cases h8 : highConfidenceThreshold ≤ m.similarity_score
      · rw [if_pos h8, if_pos h8]
      · rw [if_neg h8, if_neg h8, if_pos hth]
    · rw [hconf]
      exact confidence_not_low hth
  · unfold getConfidenceLevel
    rw [if_neg (by norm_num [highConfidenceThreshold]),
      if_neg (by norm_num [similarityThreshold])]

/-- Claim C4, witness at concrete inputs. -/
theorem claim_C4_witness :
    demoMapping.confidence = (if highConfidenceThreshold ≤ demoMapping.similarity_score
      then Confidence.high else Confidence.medium) ∧
    demoMapping.confidence ≠ Confidence.low :=
  (claim_C4 fuzzTest srcRec [tgtRec] 5).1 demoMapping
    (by rw [demo_findBestMatches5]; simp)

/-- Claim C5: if either input normalizes to the empty string (in
particular when it is null/undefined, modelled by `none`), the scorer
returns composite 0 and all four sub-scores 0 without error; otherwise
the composite is the 0.4/0.2/0.2/0.2-weighted sum of the four metrics,
each metric divided by 100. -/
theorem claim_C5 (fz : Fuzz) (A B : Option String) :
    ((normalizeText A = "" ∨ normalizeText B = "") →
      (calculateCompositeSimilarity fz A B).composite = 0 ∧
      (calculateCompositeSimilarity fz A B).individual = ⟨0, 0, 0, 0⟩) ∧
    (normalizeText A ≠ "" → normalizeText B ≠ "" →
      (calculateCompositeSimilarity fz A B).composite =
        0.4 * ((fz.ratio (normalizeText A) (normalizeText B) : ℚ) / 100)
        + 0.2 * ((fz.partRatio (normalizeText A) (normalizeText B) : ℚ) / 100)
        + 0.2 * ((fz.tokenSortRatio (normalizeText A) (normalizeText B) : ℚ) / 100)
        + 0.2 * ((fz.tokenSetRatio (normalizeText A) (normalizeText B) : ℚ) / 100) ∧
      (calculateCompositeSimilarity fz A B).individual =
        { ratio := (fz.ratio (normalizeText A) (normalizeText B) : ℚ) / 100
          partRatio := (fz.partRatio (normalizeText A) (normalizeText B) : ℚ) / 100
          tokenSortRatio :=
            (fz.tokenSortRatio (normalizeText A) (normalizeText B) : ℚ) / 100
          tokenSetRatio :=
            (fz.tokenSetRatio (normalizeText A) (normalizeText B) : ℚ) / 100 }) := by
  constructor
  · intro h
    rw [calculateCompositeSimilarity_zero fz h]
    exact ⟨rfl, rfl⟩
  · intro hA hB
    rw [calculateCompositeSimilarity_formula fz hA hB]
    exact ⟨rfl, rfl⟩

/-- Claim C5, witness at concrete inputs. -/
theorem claim_C5_witness :
    (calculateCompositeSimilarity fuzzTest (some "!") (some "ok")).composite = 0 ∧
    (calculateCompositeSimilarity fuzzTest (some "ab") (some "cd")).composite =
      0.4 * ((fuzzTest.ratio (normalizeText (some "ab")) (normalizeText (some "cd")) : ℚ) / 100)
      + 0.2 * ((fuzzTest.partRatio (normalizeText (some "ab")) (normalizeText (some "cd")) : ℚ) / 100)
      + 0.2 * ((fuzzTest.tokenSortRatio (normalizeText (some "ab")) (normalizeText (some "cd")) : ℚ) / 100)
      + 0.2 * ((fuzzTest.tokenSetRatio (normalizeText (some "ab")) (normalizeText (some "cd")) : ℚ) / 100) :=
  ⟨((claim_C5 fuzzTest (some "!") (some "ok")).1 (Or.inl (by decide))).1,
   ((claim_C5 fuzzTest (some "ab") (some "cd")).2 (by decide) (by decide)).1⟩

/-- Claim C6: the store never holds two rows for the same
`(sourceCode, targetCode)` pair: a successful save preserves the
uniqueness invariant, with `overwriteExisting = true` it replaces the
stored row for the pair, with `overwriteExisting = false` it is a no-op
when the pair exists, and a re-run of `generateMappings` preserves the
invariant. -/
theorem claim_C6 (env : DBEnv) :
    (∀ (ow : Bool) (m : Mapping) (st st' : Store),
      saveMappingToDatabase env ow m st = .ok st' →
        (NoDupKeys st → NoDupKeys st') ∧
        (ow = true → st' = applyInsertOrReplace (mappingRow m) st) ∧
        (ow = false → hasKey st (rowKey (mappingRow m)) = true → st' = st)) ∧
    (∀ (fz : Fuzz) (srcs tgts : List CodeRecord) (opts : GenOptions)
      (st st' : Store) (r : GenResult) (calls : List MappingRow),
      generateMappings fz env srcs tgts opts st = .ok (r, st', calls) →
      NoDupKeys st → NoDupKeys st') := by
  constructor
  · intro ow m st st' h
    obtain ⟨-, h2⟩ := saveMappingToDatabase_ok h
    refine ⟨?_, ?_, ?_⟩
    · intro hnd
      subst h2
      by_cases how : ow = true
      · rw [if_pos how]
        exact noDupKeys_insertOrReplace _ hnd
      · rw [if_neg how]
        exact noDupKeys_insertOrIgnore _ hnd
    · intro how
      subst h2
      rw [if_pos how]
    · intro how hk
      subst h2
      rw [if_neg (by simp [how]), applyInsertOrIgnore, if_pos hk]
  · intro fz srcs tgts opts st st' r calls h hnd
    exact (generateMappings_ok_inv h).2.2.2.2.2.2.2 hnd

/-- Claim C6, witness at concrete inputs. -/
theorem claim_C6_witness : NoDupKeys ([mappingRow demoMapping] : Store) :=
  ((claim_C6 env0).1 false demoMapping [] [mappingRow demoMapping] (by rfl)).1
    (by simp [NoDupKeys])

/-- Claim C7 (amended): for every text whose normalization is non-empty
(the claim as stated fails for non-empty texts such as `"!"` that
normalize to the empty string), the self-similarity composite is 1.0, and
1.0 is the maximum attainable composite, provided the four metrics
satisfy the 0–100 contract of §4.3 with identical non-empty inputs
attaining 100. -/
theorem claim_C7 (fz : Fuzz) (hs : FuzzSpec fz) (T : Option String)
    (hT : normalizeText T ≠ "") :
    (calculateCompositeSimilarity fz T T).composite = 1 ∧
    ∀ A B : Option String, (calculateCompositeSimilarity fz A B).composite ≤ 1 :=
  ⟨composite_self_eq_one hs T hT, fun A B => composite_le_one hs A B⟩

/-- Claim C7, counterexample to the claim as stated: `"!"` is a non-empty
text, the metric family `fuzzTest` satisfies the §4.3 contract, and yet
the self-similarity composite of `"!"` is 0, not 1.0, because `"!"`
normalizes to the empty string. -/
theorem claim_C7_counterexample :
    FuzzSpec fuzzTest ∧ ("!" : String) ≠ "" ∧
    (calculateCompositeSimilarity fuzzTest (some "!") (some "!")).composite = 0 ∧
    (calculateCompositeSimilarity fuzzTest (some "!") (some "!")).composite ≠ 1 := by
  refine ⟨fuzzTest_spec, by decide, ?_, ?_⟩
  · rw [calculateCompositeSimilarity_zero fuzzTest (Or.inl (by decide))]
  · rw [calculateCompositeSimilarity_zero fuzzTest (Or.inl (by decide))]
    norm_num

/-- Claim C7, witness for the amended theorem at concrete inputs. -/
theorem claim_C7_witness :
    (calculateCompositeSimilarity fuzzTest (some "diabetes mellitus")
      (some "diabetes mellitus")).composite = 1 :=
  (claim_C7 fuzzTest fuzzTest_spec (some "diabetes mellitus") (by decide)).1

/-- Claim C8: `normalizeText` returns the empty string on null/undefined
input (modelled by `none`), and otherwise lowercases, replaces every
character that is neither a word character nor whitespace with a space,
collapses whitespace runs and trims — equivalently, it returns exactly
the maximal word-character runs of the lowercased text joined by single
spaces.  It is a total function: it never throws. -/
theorem claim_C8 :
    normalizeText none = "" ∧
    ∀ s : String, normalizeText (some s)
      = ⟨joinWords (wordsOf (s.data.map jsToLower))⟩ := by
  refine ⟨rfl, ?_⟩
  intro s
  by_cases hs : s = ""
  · subst hs
    decide
  · show (if s = "" then "" else ⟨normalizeList s.data⟩ : String)
        = ⟨joinWords (wordsOf (s.data.map jsToLower))⟩
    rw [if_neg hs]
    exact congrArg String.mk (normalizeList_eq s.data)

/-- Claim C9: on success, `generateMappings` partitions the full mapping
list into the `high` and `medium` sub-lists by confidence tier (with no
`low` entries, so the two lengths sum to the total), and the `stats`
fields are the lengths of the three lists; with an empty target
collection it returns `stats.total = 0` and makes no persistence call,
for any sources. -/
theorem claim_C9 (fz : Fuzz) (env : DBEnv) (srcs tgts : List CodeRecord)
    (opts : GenOptions) (st : Store) :
    (∀ (r : GenResult) (st' : Store) (calls : List MappingRow),
      generateMappings fz env srcs tgts opts st = .ok (r, st', calls) →
      r.high = r.all.filter (fun m => m.confidence = Confidence.high) ∧
      r.medium = r.all.filter (fun m => m.confidence = Confidence.medium) ∧
      r.stats.total = r.all.length ∧
      r.stats.highConfidence = r.high.length ∧
      r.stats.mediumConfidence = r.medium.length ∧
      r.all.length = r.high.length + r.medium.length) ∧
    generateMappings fz env srcs [] opts st =
      .ok ({ all := [], high := [], medium := [],
             stats := { total := 0, highConfidence := 0, mediumConfidence := 0 } },
           st, []) := by
  constructor
  · intro r st' calls h
    obtain ⟨h1, h2, h3, h4, h5, hall, -, -⟩ := generateMappings_ok_inv h
    refine ⟨h1, h2, h3, h4, h5, ?_⟩
    rw [h1, h2]
    apply length_filter_partition
    intro m hm
    rw [hall] at hm
    obtain ⟨l, hl, hml⟩ := List.mem_flatten.mp hm
    obtain ⟨a, -, hla⟩ := List.mem_map.mp hl
    subst hla
    obtain ⟨hth, hconf⟩ := mem_findBestMatches hml
    rw [hconf]
    exact confidence_not_low hth
  · exact generateMappings_nil_targets fz env srcs opts st

/-- Claim C9, witness at concrete inputs. -/
theorem claim_C9_witness :
    demoResult.stats.total = demoResult.all.length ∧
    demoResult.all.length = demoResult.high.length + demoResult.medium.length := by
  obtain ⟨-, -, h3, -, -, h6⟩ :=
    (claim_C9 fuzzTest env0 [srcRec] [tgtRec] defaultGenOptions []).1
      demoResult [mappingRow demoMapping] [mappingRow demoMapping]
      demo_generateMappings
  exact ⟨h3, h6⟩

/-- Claim C10: every persisted row carries the constant `'equivalent'`
equivalence and `'automatic'` mapping type, and the numeric composite
score in both the `confidence` and `similarity_score` columns; the tier
string of the in-memory mapping is never written (the row type records
exactly the seven insert parameters, and its `confidence` field is the
numeric score). -/
theorem claim_C10 (fz : Fuzz) (env : DBEnv) (srcs tgts : List CodeRecord)
    (opts : GenOptions) (st : Store) :
    (∀ m : Mapping,
      (mappingRow m).equivalence = "equivalent" ∧
      (mappingRow m).mapping_type = "automatic" ∧
      (mappingRow m).confidence = m.similarity_score ∧
      (mappingRow m).similarity_score = m.similarity_score) ∧
    (∀ (r : GenResult) (st' : Store) (calls : List MappingRow),
      generateMappings fz env srcs tgts opts st = .ok (r, st', calls) →
      ∀ row ∈ calls, autoRow row) := by
  constructor
  · intro m
    exact ⟨rfl, rfl, rfl, rfl⟩
  · intro r st' calls h row hrow
    obtain ⟨-, -, -, -, -, -, hcalls, -⟩ := generateMappings_ok_inv h
    rw [hcalls] at hrow
    by_cases hsv : opts.saveToDatabase = true
    · rw [if_pos hsv] at hrow
      obtain ⟨m, -, hm⟩ := List.mem_map.mp hrow
      exact hm ▸ autoRow_mappingRow m
    · rw [if_neg hsv] at hrow
      exact absurd hrow (by simp)

/-- Claim C10, witness at concrete inputs. -/
theorem claim_C10_witness :
    ((mappingRow demoMapping).equivalence = "equivalent" ∧
      (mappingRow demoMapping).mapping_type = "automatic" ∧
      (mappingRow demoMapping).confidence = demoMapping.similarity_score ∧
      (mappingRow demoMapping).similarity_score = demoMapping.similarity_score) ∧
    autoRow (mappingRow demoMapping) :=
  ⟨(claim_C10 fuzzTest env0 [srcRec] [tgtRec] defaultGenOptions []).1 demoMapping,
   (claim_C10 fuzzTest env0 [srcRec] [tgtRec] defaultGenOptions []).2
     demoResult [mappingRow demoMapping] [mappingRow demoMapping]
     demo_generateMappings (mappingRow demoMapping) (by simp)⟩

end SIHapi
